import Mathlib

/-!
Verification of the nosh food-nutrition ledger (Rust) against its
natural-language specification.

Shallow embedding conventions:
* Rust `f32` values are modelled as exact rationals (`ℚ`); IEEE rounding is
  not modelled, and `x / 0` is `0` in the model where Rust would produce an
  infinity or NaN.  All numeric claims below are about the algebra of the
  algorithms, not about float rounding.
* Rust `Result<T>` / `anyhow::Error` are modelled as `Except` with structured
  error values that carry exactly the data interpolated into the Rust error
  message (`bail!` format arguments).
* Byte streams are modelled as the list of text lines (`BufRead::lines`) or,
  for the INI format of `Food`, as the parsed INI structure (the parsing done
  by the third-party `ini` crate); the repository's own logic on top of the
  library is translated statement by statement.
* String primitives used by the source (`trim`, `split_once`, `starts_with`,
  `find`) are given explicit structural models on `List Char` so that they
  evaluate by `decide`/`rfl`; they agree with the Rust ones on ASCII input.
-/

/-! ## Nutrients (src/nutrients.rs) -/

/-- Model of `struct Nutrients { carb, fat, protein, kcal: f32 }`. -/
structure Nutrients where
  carb : ℚ
  fat : ℚ
  protein : ℚ
  kcal : ℚ
deriving DecidableEq, Repr

/-- `Nutrients::default()`: all fields zero. -/
def Nutrients.default : Nutrients := ⟨0, 0, 0, 0⟩

/-- `impl Add<Nutrients> for Nutrients`: componentwise addition. -/
instance : Add Nutrients :=
  ⟨fun a b => ⟨a.carb + b.carb, a.fat + b.fat, a.protein + b.protein, a.kcal + b.kcal⟩⟩

/-- `impl Mul<f32> for Nutrients`: componentwise scaling. -/
instance : HMul Nutrients ℚ Nutrients :=
  ⟨fun n k => ⟨n.carb * k, n.fat * k, n.protein * k, n.kcal * k⟩⟩

@[simp] theorem Nutrients.add_def (a b : Nutrients) :
    a + b = ⟨a.carb + b.carb, a.fat + b.fat, a.protein + b.protein, a.kcal + b.kcal⟩ := rfl

@[simp] theorem Nutrients.mul_def (n : Nutrients) (k : ℚ) :
    n * k = ⟨n.carb * k, n.fat * k, n.protein * k, n.kcal * k⟩ := rfl

/-- `Nutrients::maybe_compute_kcal` (src/nutrients.rs:16-25): fill in kcal by
the Atwater general formula when it is not explicitly positive. -/
def Nutrients.maybeComputeKcal (n : Nutrients) : Nutrients :=
  { n with kcal := if n.kcal > 0 then n.kcal else n.carb * 4 + n.fat * 9 + n.protein * 4 }

/-! ## Serving (src/serving.rs) -/

/-- Model of `struct Serving { size: f32, unit: Option<String> }`. -/
structure Serving where
  size : ℚ
  unit : Option String
deriving DecidableEq, Repr

/-- `Serving::default()`: one unit-less serving. -/
def Serving.default : Serving := ⟨1, none⟩

/-- `impl Mul<f32> for Serving`: scales the size, keeps the unit. -/
instance : HMul Serving ℚ Serving := ⟨fun s k => ⟨s.size * k, s.unit⟩⟩

@[simp] theorem Serving.smul_def (s : Serving) (k : ℚ) : s * k = ⟨s.size * k, s.unit⟩ := rfl

/-! ## String primitives (models of the Rust std functions used by nosh) -/

/-- Model of `char::is_whitespace` restricted to the ASCII range used by the
data files (agrees with Lean's `Char.isWhitespace`). -/
def isWS (c : Char) : Bool := c = ' ' ∨ c = '\t' ∨ c = '\n' ∨ c = '\r'

/-- Model of `str::trim`: drop whitespace from both ends. -/
def strTrim (s : String) : String :=
  ⟨((s.data.dropWhile isWS).reverse.dropWhile isWS).reverse⟩

/-- Model of `str::starts_with` (used as `u.starts_with(unit)` in
`Food::serve`). -/
def strStartsWith (s pre : String) : Bool := pre.data.isPrefixOf s.data

/-- Model of `str::split_once(c)`: split at the first occurrence of `c`. -/
def splitOnce (s : String) (c : Char) : Option (String × String) :=
  match s.data.findIdx? (· == c) with
  | some i => some (⟨s.data.take i⟩, ⟨s.data.drop (i + 1)⟩)
  | none => none

/-- Decimal digit string value (big-endian). Helper for `parseNum`. -/
def digitsToNat (cs : List Char) : Nat :=
  cs.foldl (fun a c => 10 * a + (c.toNat - 48)) 0

/-- Model of `f32::from_str` restricted to the plain decimal literals that the
nosh file formats produce (`[0-9]*\.?[0-9]*` with at least one digit); signs,
exponents, `inf`/`NaN` and float rounding are not modelled.  Returns the exact
rational value. -/
def parseNum (s : String) : Option ℚ :=
  let cs := s.data
  if cs.isEmpty then none
  else if cs.all (fun c => c == '.' || c.isDigit) then
    match cs.findIdx? (· == '.') with
    | none => some (digitsToNat cs)
    | some i =>
      let a := cs.take i
      let b := cs.drop (i + 1)
      if b.any (· == '.') then none
      else if a.isEmpty && b.isEmpty then none
      else some ((digitsToNat a : ℚ) + (digitsToNat b : ℚ) / (10 : ℚ) ^ b.length)
  else none

/-- Model of `impl FromStr for Serving` (src/serving.rs:46-64): trim, split at
the first character that is neither `.` nor a digit, parse the size, trim the
unit. -/
def parseServing (s : String) : Option Serving :=
  let t := strTrim s
  match t.data.findIdx? (fun c => !(c == '.' || c.isDigit)) with
  | some i =>
    (parseNum (strTrim ⟨t.data.take i⟩)).map fun q => ⟨q, some (strTrim ⟨t.data.drop i⟩)⟩
  | none => (parseNum t).map fun q => ⟨q, none⟩

/-! ## Food (src/food.rs) -/

mutual
/-- Model of `struct Food { name, spec, servings }`; a serving-table entry
`(unit, size_per_serving)` is a `String × ℚ` pair as in the source. -/
inductive Food : Type where
  | mk (name : String) (spec : FoodSpec) (servings : List (String × ℚ)) : Food

/-- Model of `enum FoodSpec { Nutrients(..), Ingredients(..) }`. -/
inductive FoodSpec : Type where
  | nutrients (n : Nutrients) : FoodSpec
  | ingredients (l : List Ingredient) : FoodSpec

/-- Model of `struct Ingredient { key, serving, food }`; the referenced food
is embedded by value, so the model is a finite tree. -/
inductive Ingredient : Type where
  | mk (key : String) (serving : Serving) (food : Food) : Ingredient
end

def Food.name : Food → String
  | .mk n _ _ => n

def Food.spec : Food → FoodSpec
  | .mk _ s _ => s

def Food.servings : Food → List (String × ℚ)
  | .mk _ _ s => s

def Ingredient.key : Ingredient → String
  | .mk k _ _ => k

def Ingredient.serving : Ingredient → Serving
  | .mk _ s _ => s

def Ingredient.food : Ingredient → Food
  | .mk _ _ f => f

/-- Structured form of the errors `bail!`ed by `Food::serve`
(src/food.rs:67-70 and 74-78); the payloads are exactly the data interpolated
into the Rust message. -/
inductive ServeErr : Type where
  | unknownUnit (requested : String) (defined : List String) : ServeErr
  | ambiguous (requested : String) (first second : String) : ServeErr
deriving DecidableEq, Repr

/-- Unit resolution step of `Food::serve` (src/food.rs:58-85): with no unit the
portion is the size; with a unit, filter the servings table by prefix match and
inspect the first two matches (the two `matched.next()` calls). -/
def resolvePortion (servings : List (String × ℚ)) (s : Serving) : Except ServeErr ℚ :=
  match s.unit with
  | none => .ok s.size
  | some unit =>
    match servings.filter (fun e => strStartsWith e.1 unit) with
    | [] => .error (.unknownUnit unit (servings.map Prod.fst))
    | first :: rest =>
      match rest with
      | next :: _ => .error (.ambiguous unit first.1 next.1)
      | [] => .ok (s.size / first.2)

mutual
/-- Model of `Food::serve` (src/food.rs:57-97): resolve the portion, then
either scale the leaf nutrients or recursively serve each ingredient with its
serving scaled by the portion, accumulating the sum. -/
def Food.serve : Food → Serving → Except ServeErr Nutrients
  | .mk _ spec servs, s =>
    match resolvePortion servs s with
    | .error e => .error e
    | .ok portion =>
      match spec with
      | .nutrients n => .ok (n * portion)
      | .ingredients l => serveIngredients Nutrients.default l portion
termination_by f _ => sizeOf f

/-- The `for i in ingredients { res = res + i.food.serve(&(i.serving.clone() * portion))?; }`
loop of `Food::serve`, with explicit accumulator `res`. -/
def serveIngredients : Nutrients → List Ingredient → ℚ → Except ServeErr Nutrients
  | res, [], _ => .ok res
  | res, .mk _ sv food :: rest, portion =>
    match food.serve (sv * portion) with
    | .error e => .error e
    | .ok n => serveIngredients (res + n) rest portion
termination_by _ l _ => sizeOf l
end

example :
    Food.serve (.mk "" (.nutrients ⟨12, 3, 8, 120⟩) [("g", 100), ("cups", 1/2)])
      ⟨2, some "c"⟩ = .ok ⟨48, 12, 32, 480⟩ := by
  simp [Food.serve, resolvePortion, strStartsWith, List.isPrefixOf, Nutrients.mul_def]
  norm_num

/-- One-step unfolding of `Food.serve` on a constructor. -/
theorem Food.serve_mk (nm : String) (spec : FoodSpec) (servs : List (String × ℚ))
    (s : Serving) :
    Food.serve (.mk nm spec servs) s =
      match resolvePortion servs s with
      | .error e => .error e
      | .ok portion =>
        match spec with
        | .nutrients n => .ok (n * portion)
        | .ingredients l => serveIngredients Nutrients.default l portion := by
  rw [Food.serve]

/-! ## Spec-side restatement of the serve algorithm (for the refinement claim C2)

The definitions below follow the WORDS of the specification (spec.md §4.3 and
§4.4), not the source: the portion is obtained by the three-case analysis of
the filtered servings table, and the ingredient case is "collect the result of
`f.serve(s * p)` for every ingredient, then sum" with failures propagated. -/

/-- Modelled from the spec's words (§4.3): the three-case serving-unit
resolution. -/
def portionSpec (servings : List (String × ℚ)) (s : Serving) : Except ServeErr ℚ :=
  match s.unit with
  | none => .ok s.size
  | some u =>
    match servings.filter (fun e => strStartsWith e.1 u) with
    | [] => .error (.unknownUnit u (servings.map Prod.fst))
    | [e] => .ok (s.size / e.2)
    | e1 :: e2 :: _ => .error (.ambiguous u e1.1 e2.1)

/-- Sum of a list of nutrient values, starting from the all-zero identity. -/
def Nutrients.sum (l : List Nutrients) : Nutrients := l.foldl (· + ·) Nutrients.default

mutual
/-- Modelled from the spec's words (§4.4): `n * p` for a leaf, the sum of the
recursively resolved ingredients for a composite. -/
def Food.serveSpec : Food → Serving → Except ServeErr Nutrients
  | .mk _ spec servs, s =>
    match portionSpec servs s with
    | .error e => .error e
    | .ok p =>
      match spec with
      | .nutrients n => .ok (n * p)
      | .ingredients l =>
        match serveSpecResults l p with
        | .error e => .error e
        | .ok ns => .ok (Nutrients.sum ns)
termination_by f _ => sizeOf f

/-- The per-ingredient results `f.serve(s * p)`, with the first failure
propagated. -/
def serveSpecResults : List Ingredient → ℚ → Except ServeErr (List Nutrients)
  | [], _ => .ok []
  | .mk _ sv food :: rest, p =>
    match food.serveSpec (sv * p) with
    | .error e => .error e
    | .ok n =>
      match serveSpecResults rest p with
      | .error e => .error e
      | .ok ns => .ok (n :: ns)
termination_by l _ => sizeOf l
end

theorem resolvePortion_eq_portionSpec (servings : List (String × ℚ)) (s : Serving) :
    resolvePortion servings s = portionSpec servings s := by
  unfold resolvePortion portionSpec
  cases s.unit with
  | none => rfl
  | some u =>
    rcases hf : servings.filter (fun e => strStartsWith e.1 u) with _ | ⟨a, _ | ⟨b, rest⟩⟩ <;>
      simp [hf]

/-! Componentwise algebra of `Nutrients`. -/

theorem Nutrients.default_mul (k : ℚ) : Nutrients.default * k = Nutrients.default := by
  simp only [Nutrients.default, Nutrients.mul_def, Nutrients.mk.injEq]
  exact ⟨by ring, by ring, by ring, by ring⟩

theorem Nutrients.add_mul (a b : Nutrients) (k : ℚ) : (a + b) * k = a * k + b * k := by
  simp only [Nutrients.add_def, Nutrients.mul_def, Nutrients.mk.injEq]
  exact ⟨by ring, by ring, by ring, by ring⟩

theorem Nutrients.mul_left_comm (n : Nutrients) (a b : ℚ) : n * (a * b) = (n * b) * a := by
  simp only [Nutrients.mul_def, Nutrients.mk.injEq]
  exact ⟨by ring, by ring, by ring, by ring⟩

mutual
/-- The source algorithm coincides with the spec-side restatement. -/
theorem serve_eq_spec (f : Food) (s : Serving) : f.serve s = f.serveSpec s := by
  cases f with
  | mk nm spec servs =>
    rw [Food.serve_mk, Food.serveSpec, resolvePortion_eq_portionSpec]
    cases portionSpec servs s with
    | error e => rfl
    | ok p =>
      cases spec with
      | nutrients n => rfl
      | ingredients l =>
        dsimp only
        rw [serveIngredients_eq_results Nutrients.default l p]
        cases serveSpecResults l p with
        | error e => rfl
        | ok ns => rfl
termination_by sizeOf f

/-- The accumulating loop equals "collect all results, then fold". -/
theorem serveIngredients_eq_results (acc : Nutrients) (l : List Ingredient) (p : ℚ) :
    serveIngredients acc l p =
      (serveSpecResults l p).map (fun ns => ns.foldl (· + ·) acc) := by
  match l with
  | [] => rw [serveIngredients, serveSpecResults]; rfl
  | .mk k sv food :: rest =>
    rw [serveIngredients, serveSpecResults, serve_eq_spec food (sv * p)]
    cases food.serveSpec (sv * p) with
    | error e => rfl
    | ok n =>
      dsimp only
      rw [serveIngredients_eq_results (acc + n) rest p]
      cases serveSpecResults rest p with
      | error e => rfl
      | ok ns => rfl
termination_by sizeOf l
end

theorem resolvePortion_smul (servings : List (String × ℚ)) (u : Option String) (s k : ℚ) :
    resolvePortion servings ⟨k * s, u⟩ =
      (resolvePortion servings ⟨s, u⟩).map (fun p => k * p) := by
  unfold resolvePortion
  cases u with
  | none => rfl
  | some unit =>
    rcases hf : servings.filter (fun e => strStartsWith e.1 unit) with _ | ⟨a, _ | ⟨b, rest⟩⟩ <;>
      simp [hf, Except.map, mul_div_assoc]

mutual
/-- Serving `k` times the size scales the result by `k`, with identical error
behaviour (exact-rational model of the f32 arithmetic). -/
theorem serve_smul (f : Food) (u : Option String) (s k : ℚ) :
    f.serve ⟨k * s, u⟩ = (f.serve ⟨s, u⟩).map (fun n : Nutrients => n * k) := by
  cases f with
  | mk nm spec servs =>
    rw [Food.serve_mk, Food.serve_mk, resolvePortion_smul]
    cases resolvePortion servs ⟨s, u⟩ with
    | error e => rfl
    | ok p =>
      dsimp only [Except.map]
      cases spec with
      | nutrients n =>
        show Except.ok (n * (k * p)) = Except.ok ((n * p) * k)
        rw [Nutrients.mul_left_comm n k p]
      | ingredients l =>
        show serveIngredients Nutrients.default l (k * p) = _
        have h := serveIngredients_smul Nutrients.default l p k
        rw [Nutrients.default_mul] at h
        exact h
termination_by sizeOf f

/-- Loop form of `serve_smul`, with the accumulator scaled alongside. -/
theorem serveIngredients_smul (acc : Nutrients) (l : List Ingredient) (p k : ℚ) :
    serveIngredients (acc * k) l (k * p) =
      (serveIngredients acc l p).map (fun n : Nutrients => n * k) := by
  match l with
  | [] => rw [serveIngredients, serveIngredients]; rfl
  | .mk key sv food :: rest =>
    rw [serveIngredients, serveIngredients]
    have hsv : sv * (k * p) = Serving.mk (k * (sv.size * p)) sv.unit := by
      simp only [Serving.smul_def, Serving.mk.injEq]
      exact ⟨by ring, trivial⟩
    rw [hsv, serve_smul food sv.unit (sv.size * p) k]
    cases food.serve ⟨sv.size * p, sv.unit⟩ with
    | error e => rfl
    | ok n =>
      dsimp only [Except.map]
      have h := serveIngredients_smul (acc + n) rest p k
      rw [Nutrients.add_mul] at h
      exact h
termination_by sizeOf l
end

/-! ## Claims C1, C2, C7 (Food::serve) -/

/-- C1: for a requested `Serving {size, unit: Some u}`, `Food::serve` filters
the servings table by case-sensitive prefix match on `u`: zero matches fail
with the unknown-serving-unit error listing every defined unit name, two or
more matches fail with the ambiguous-serving-unit error naming the first two
colliding candidates, and exactly one match resolves the portion with no
unit-resolution error. -/
theorem c1_unit_resolution (f : Food) (sz : ℚ) (u : String) :
    ((f.servings.filter fun e => strStartsWith e.1 u) = [] →
      f.serve ⟨sz, some u⟩ = .error (.unknownUnit u (f.servings.map Prod.fst))) ∧
    (∀ a b rest, (f.servings.filter fun e => strStartsWith e.1 u) = a :: b :: rest →
      f.serve ⟨sz, some u⟩ = .error (.ambiguous u a.1 b.1)) ∧
    (∀ a, (f.servings.filter fun e => strStartsWith e.1 u) = [a] →
      resolvePortion f.servings ⟨sz, some u⟩ = .ok (sz / a.2)) := by
  cases f with
  | mk nm spec servs =>
    dsimp only [Food.servings]
    refine ⟨fun h => ?_, fun a b rest h => ?_, fun a h => ?_⟩
    · rw [Food.serve_mk]; simp [resolvePortion, h]
    · rw [Food.serve_mk]; simp [resolvePortion, h]
    · simp [resolvePortion, h]

/-- A concrete food whose two unit names share the prefix "g", used to witness
all three unit-resolution outcomes. -/
def gramsFood : Food := .mk "sample" (.nutrients ⟨1, 2, 3, 4⟩) [("grams", 100), ("g", 100)]

/-- Witness for C1: the three cases at concrete inputs. -/
theorem c1_unit_resolution_witness :
    (gramsFood.servings.filter fun e => strStartsWith e.1 "x") = [] ∧
    gramsFood.serve ⟨1, some "x"⟩ = .error (.unknownUnit "x" ["grams", "g"]) ∧
    (gramsFood.servings.filter fun e => strStartsWith e.1 "g") = [("grams", 100), ("g", 100)] ∧
    gramsFood.serve ⟨1, some "g"⟩ = .error (.ambiguous "g" "grams" "g") ∧
    (gramsFood.servings.filter fun e => strStartsWith e.1 "gr") = [("grams", 100)] ∧
    resolvePortion gramsFood.servings ⟨1, some "gr"⟩ = .ok (1 / 100) :=
  ⟨by decide, (c1_unit_resolution gramsFood 1 "x").1 (by decide), by decide,
    (c1_unit_resolution gramsFood 1 "g").2.1 ("grams", 100) ("g", 100) [] (by decide),
    by decide, (c1_unit_resolution gramsFood 1 "gr").2.2 ("grams", 100) (by decide)⟩

/-- C2: `Food::serve` computes exactly the spec's recursive formula: with the
resolved portion `p`, a `Nutrients(n)` food yields `n * p`, and an
`Ingredients(list)` food yields the sum of `f.serve(s * p)` over its
ingredients (scaling only the serving size, keeping its unit), with any
unit-resolution failure at any depth propagated and no partial total
returned. -/
theorem c2_serve_refines_spec (f : Food) (s : Serving) : f.serve s = f.serveSpec s :=
  serve_eq_spec f s

/-- C7: serving `k * s` of a food equals `k` times serving `s`, for positive
`k`, with identical failure behaviour (in the exact-rational model of the f32
arithmetic). -/
theorem c7_serve_linearity (f : Food) (u : Option String) (s k : ℚ) (_hk : 0 < k) :
    f.serve ⟨k * s, u⟩ = (f.serve ⟨s, u⟩).map (fun n : Nutrients => n * k) :=
  serve_smul f u s k

/-- Witness for C7 at `k = 2`, `s = 3`. -/
theorem c7_serve_linearity_witness :
    (0 : ℚ) < 2 ∧
    Food.serve gramsFood ⟨(2 : ℚ) * 3, none⟩ =
      (Food.serve gramsFood ⟨3, none⟩).map (fun n : Nutrients => n * (2 : ℚ)) :=
  ⟨by norm_num, c7_serve_linearity gramsFood none 3 2 (by norm_num)⟩

/-! ## Claim C8 (Nutrients::maybe_compute_kcal) -/

/-- C8: `maybe_compute_kcal` never changes carb, fat or protein; a zero input
kcal is replaced by the Atwater value `4*carb + 4*protein + 9*fat`, and a
positive input kcal is returned unchanged. -/
theorem c8_maybe_compute_kcal (n : Nutrients) :
    (n.maybeComputeKcal.carb = n.carb ∧ n.maybeComputeKcal.fat = n.fat ∧
      n.maybeComputeKcal.protein = n.protein) ∧
    (n.kcal = 0 → n.maybeComputeKcal.kcal = 4 * n.carb + 4 * n.protein + 9 * n.fat) ∧
    (0 < n.kcal → n.maybeComputeKcal.kcal = n.kcal) := by
  refine ⟨⟨rfl, rfl, rfl⟩, fun h0 => ?_, fun hpos => ?_⟩
  · simp only [Nutrients.maybeComputeKcal, h0]
    norm_num
    ring
  · simp only [Nutrients.maybeComputeKcal, if_pos hpos]

/-- Witness for C8: both kcal branches at concrete inputs. -/
theorem c8_maybe_compute_kcal_witness :
    ((Nutrients.mk 1 2 3 0).kcal = 0 ∧
      (Nutrients.mk 1 2 3 0).maybeComputeKcal.kcal = 4 * 1 + 4 * 3 + 9 * 2) ∧
    ((0 : ℚ) < 5 ∧ (Nutrients.mk 1 2 3 5).maybeComputeKcal.kcal = 5) :=
  ⟨⟨rfl, by rw [(c8_maybe_compute_kcal ⟨1, 2, 3, 0⟩).2.1 rfl]⟩,
    ⟨by norm_num, by rw [(c8_maybe_compute_kcal ⟨1, 2, 3, 5⟩).2.2 (by norm_num)]⟩⟩

/-! ## Loading and saving (src/food.rs, src/journal.rs, src/recipe.rs)

The INI text parsing itself is done by the third-party `ini` crate, so `Food`
loading is modelled from the parsed INI structure onward (general section plus
named sections, each an ordered key/value list; `get` returns the first value
for a key).  Journal and Recipe files are plain line formats read via
`BufRead::lines`, modelled as a `List String` of lines. -/

/-- Structured form of the load-time errors of the three `Data::load`
implementations; payloads are the data interpolated into the Rust messages. -/
inductive LoadErr : Type where
  | missingName
  | mustSpecifyOne
  | cannotBoth
  | parseErr (value : String)
  | foodNotFound (key : String)
  | servingInvalid (e : ServeErr)
deriving DecidableEq, Repr

/-- Parsed INI structure produced by `Ini::read_from`: the general (unnamed)
section and the named sections, in file order. -/
structure Ini where
  general : List (String × String)
  sections : List (String × List (String × String))

/-- `Properties::get`: first value stored under the key. -/
def iniGet (props : List (String × String)) (k : String) : Option String :=
  List.lookup k props

/-- The `[servings]` loop of `Food::load` (src/food.rs:181-186): parse each
value, pushing `(unit, size)` in order. -/
def loadServings : List (String × String) → Except LoadErr (List (String × ℚ))
  | [] => .ok []
  | (k, v) :: rest =>
    match parseNum v with
    | none => .error (.parseErr v)
    | some q =>
      match loadServings rest with
      | .error e => .error e
      | .ok l => .ok ((k, q) :: l)

/-- The `[nutrients]` branch of `Food::load` (src/food.rs:193-201): each of
kcal/carb/fat/protein is read with default "0" and parsed, in source order. -/
def parseNutrientsSec (sec : List (String × String)) : Except LoadErr Nutrients :=
  match parseNum ((iniGet sec "kcal").getD "0") with
  | none => .error (.parseErr ((iniGet sec "kcal").getD "0"))
  | some kcal =>
    match parseNum ((iniGet sec "carb").getD "0") with
    | none => .error (.parseErr ((iniGet sec "carb").getD "0"))
    | some carb =>
      match parseNum ((iniGet sec "fat").getD "0") with
      | none => .error (.parseErr ((iniGet sec "fat").getD "0"))
      | some fat =>
        match parseNum ((iniGet sec "protein").getD "0") with
        | none => .error (.parseErr ((iniGet sec "protein").getD "0"))
        | some protein => .ok ⟨carb, fat, protein, kcal⟩

/-- The `[ingredients]` loop of `Food::load` (src/food.rs:202-213): parse the
serving, resolve the food key via the callback, fail with the food-not-found
error when the callback returns `None`. -/
def loadIngredients (resolver : String → Except LoadErr (Option Food)) :
    List (String × String) → Except LoadErr (List Ingredient)
  | [] => .ok []
  | (k, v) :: rest =>
    match parseServing v with
    | none => .error (.parseErr v)
    | some s =>
      match resolver k with
      | .error e => .error e
      | .ok none => .error (.foodNotFound k)
      | .ok (some f) =>
        match loadIngredients resolver rest with
        | .error e => .error e
        | .ok l => .ok (.mk k s f :: l)

/-- Model of `Food::load` (src/food.rs:167-218) from the parsed INI onward:
require `name`, read optional `[servings]`, then exactly one of `[nutrients]`
or `[ingredients]`. -/
def Food.loadIni (resolver : String → Except LoadErr (Option Food)) (ini : Ini) :
    Except LoadErr Food :=
  match iniGet ini.general "name" with
  | none => .error .missingName
  | some name =>
    match (match List.lookup "servings" ini.sections with
           | some sec => loadServings sec
           | none => Except.ok []) with
    | .error e => .error e
    | .ok servs =>
      match List.lookup "nutrients" ini.sections, List.lookup "ingredients" ini.sections with
      | none, none => .error .mustSpecifyOne
      | some nsec, none =>
        match parseNutrientsSec nsec with
        | .error e => .error e
        | .ok n => .ok (.mk name (.nutrients n) servs)
      | none, some isec =>
        match loadIngredients resolver isec with
        | .error e => .error e
        | .ok l => .ok (.mk name (.ingredients l) servs)
      | some _, some _ => .error .cannotBoth

/-- Model of `struct JournalEntry { key, serving, food }`. -/
structure JournalEntry where
  key : String
  serving : Serving
  food : Food

/-- One line of a journal: `key [= serving]` (src/journal.rs:51-54); the
serving defaults to `1` with no unit when `=` is absent. -/
def parseJournalLine (t : String) : Except LoadErr (String × Serving) :=
  match splitOnce t '=' with
  | some (a, b) =>
    match parseServing b with
    | none => .error (.parseErr b)
    | some s => .ok (strTrim a, s)
  | none => .ok (t, Serving.default)

/-- Model of `Journal::load` (src/journal.rs:40-66): per nonempty trimmed
line, parse the entry, resolve the food key (failing with the food-not-found
error on `None`), and validate the serving by running `Food::serve` on it. -/
def Journal.load (resolver : String → Except LoadErr (Option Food)) :
    List String → Except LoadErr (List JournalEntry)
  | [] => .ok []
  | line :: rest =>
    let t := strTrim line
    if t = "" then Journal.load resolver rest
    else
      match parseJournalLine t with
      | .error e => .error e
      | .ok (key, serving) =>
        match resolver key with
        | .error e => .error e
        | .ok none => .error (.foodNotFound key)
        | .ok (some food) =>
          match food.serve serving with
          | .error e => .error (.servingInvalid e)
          | .ok _ =>
            match Journal.load resolver rest with
            | .error e => .error e
            | .ok entries => .ok (⟨key, serving, food⟩ :: entries)

/-- Model of `struct Recipe { name, ingredients }` (src/recipe.rs:13-18). -/
structure Recipe where
  name : String
  ingredients : List (String × Serving)
deriving DecidableEq, Repr

/-- The line loop of `Recipe::load` (src/recipe.rs:31-51) with the accumulated
`Recipe::default()` state made explicit: a `name = X` line sets the name, any
other `a = b` line pushes `(a, parsed b)`, and a bare line pushes the trimmed
line with the default serving.  `Recipe::load` takes no food resolver. -/
def Recipe.loadLines : Recipe → List String → Except LoadErr Recipe
  | res, [] => .ok res
  | res, line :: rest =>
    let t := strTrim line
    if t = "" then Recipe.loadLines res rest
    else
      match splitOnce t '=' with
      | some (a, b) =>
        if strTrim a = "name" then Recipe.loadLines { res with name := strTrim b } rest
        else
          match parseServing (strTrim b) with
          | none => .error (.parseErr (strTrim b))
          | some s =>
            Recipe.loadLines { res with ingredients := res.ingredients ++ [(strTrim a, s)] } rest
      | none =>
        Recipe.loadLines { res with ingredients := res.ingredients ++ [(t, Serving.default)] } rest

/-- Model of `Recipe::load`, starting from `Recipe::default()`. -/
def Recipe.load (lines : List String) : Except LoadErr Recipe :=
  Recipe.loadLines ⟨"", []⟩ lines

/-! Decimal rendering, used by the save formats (`{}` formatting of sizes).
`qRender` models Rust's `Display` only on values with a short exact decimal
expansion (which covers the sizes the text formats round-trip); no theorem
depends on its output. -/

/-- The ASCII digit for `d ≤ 9`. -/
def digitChar (d : Nat) : Char := Char.ofNat (48 + d)

/-- Little-endian decimal digits of `n`, with explicit fuel (always
sufficient at `n + 1`) so that the definition evaluates structurally. -/
def natDigitsLEAux : Nat → Nat → List Char
  | 0, _ => []
  | fuel + 1, n => if n < 10 then [digitChar n] else digitChar (n % 10) :: natDigitsLEAux fuel (n / 10)

/-- Big-endian decimal digits of `n` (no leading zeros; `0` is "0"). -/
def natChars (n : Nat) : List Char := (natDigitsLEAux (n + 1) n).reverse

/-- Decimal string of a natural number, as Rust's `{}` formatting prints it. -/
def natDecimal (n : Nat) : String := ⟨natChars n⟩

/-- Fractional decimal digits of `rem / den`, up to the fuel. -/
def fracChars : Nat → Nat → Nat → List Char
  | 0, _, _ => []
  | fuel + 1, rem, den =>
    if rem = 0 then [] else digitChar (rem * 10 / den) :: fracChars fuel (rem * 10 % den) den

/-- Decimal rendering of a rational (see the note above). -/
def qRender (q : ℚ) : String :=
  (if q < 0 then "-" else "") ++ natDecimal (q.num.natAbs / q.den) ++
    (if q.num.natAbs % q.den = 0 then "" else "." ++ (⟨fracChars 64 (q.num.natAbs % q.den) q.den⟩ : String))

/-- `impl Display for Serving` (src/serving.rs:35-42): `"size unit"` or bare
`"size"`. -/
def servingToString (s : Serving) : String :=
  match s.unit with
  | some u => qRender s.size ++ " " ++ u
  | none => qRender s.size

/-- Model of `Recipe::save` (src/recipe.rs:53-58): one `food = serving` line
per ingredient; the recipe's `name` field is never written. -/
def Recipe.save (r : Recipe) : List String :=
  r.ingredients.map fun e => e.1 ++ " = " ++ servingToString e.2

/-! ## Helper lemmas about the loaders -/

/-- A successful ingredient load keeps every entry, in order, and embeds the
food the resolver returned for each key. -/
theorem loadIngredients_ok (resolver : String → Except LoadErr (Option Food)) :
    ∀ (entries : List (String × String)) (l : List Ingredient),
      loadIngredients resolver entries = .ok l →
      l.map Ingredient.key = entries.map Prod.fst ∧
        ∀ i ∈ l, resolver i.key = .ok (some i.food) := by
  intro entries
  induction entries with
  | nil =>
    intro l h
    rw [loadIngredients] at h
    cases h
    exact ⟨rfl, by simp⟩
  | cons e rest ih =>
    intro l h
    obtain ⟨k, v⟩ := e
    rw [loadIngredients] at h
    cases hps : parseServing v with
    | none => rw [hps] at h; exact absurd h (by simp)
    | some s =>
      rw [hps] at h
      cases hres : resolver k with
      | error err => rw [hres] at h; exact absurd h (by simp)
      | ok of =>
        rw [hres] at h
        cases of with
        | none => exact absurd h (by simp)
        | some f =>
          cases hrest : loadIngredients resolver rest with
          | error err => rw [hrest] at h; exact absurd h (by simp)
          | ok tl =>
            rw [hrest] at h
            cases h
            obtain ⟨hkeys, hres'⟩ := ih tl hrest
            refine ⟨by simpa [Ingredient.key] using hkeys, ?_⟩
            intro i hi
            rcases List.mem_cons.mp hi with rfl | hi
            · simpa [Ingredient.key, Ingredient.food] using hres
            · exact hres' i hi

/-- A successful journal load has one entry per nonempty line, each embedding
the food the resolver returned for its key. -/
theorem journal_load_ok (resolver : String → Except LoadErr (Option Food)) :
    ∀ (lines : List String) (j : List JournalEntry),
      Journal.load resolver lines = .ok j →
      j.length = (lines.filter fun l => strTrim l ≠ "").length ∧
        ∀ e ∈ j, resolver e.key = .ok (some e.food) := by
  intro lines
  induction lines with
  | nil =>
    intro j h
    rw [Journal.load] at h
    cases h
    exact ⟨by simp, by simp⟩
  | cons line rest ih =>
    intro j h
    rw [Journal.load] at h
    by_cases ht : strTrim line = ""
    · rw [if_pos ht] at h
      obtain ⟨hlen, hmem⟩ := ih j h
      refine ⟨?_, hmem⟩
      rw [hlen, List.filter_cons]
      simp [ht]
    · rw [if_neg ht] at h
      cases hpl : parseJournalLine (strTrim line) with
      | error e => rw [hpl] at h; exact absurd h (by simp)
      | ok kv =>
        obtain ⟨key, serving⟩ := kv
        rw [hpl] at h
        dsimp only at h
        cases hres : resolver key with
        | error err => rw [hres] at h; exact absurd h (by simp)
        | ok of =>
          rw [hres] at h
          cases of with
          | none => exact absurd h (by simp)
          | some food =>
            dsimp only at h
            cases hsv : food.serve serving with
            | error err => rw [hsv] at h; exact absurd h (by simp)
            | ok n =>
              rw [hsv] at h
              dsimp only at h
              cases hrest : Journal.load resolver rest with
              | error err => rw [hrest] at h; exact absurd h (by simp)
              | ok entries =>
                rw [hrest] at h
                dsimp only at h
                cases h
                obtain ⟨hlen, hmem⟩ := ih entries hrest
                refine ⟨?_, ?_⟩
                · simp [List.filter_cons, ht, hlen]
                · intro e he
                  rcases List.mem_cons.mp he with rfl | he
                  · simpa using hres
                  · exact hmem e he

/-- Where an ingredient keyed "name" in a loaded recipe can come from: it was
already in the accumulator, or some bare (no `=`) line trims to exactly
`name`. -/
theorem recipe_loadLines_name_mem :
    ∀ (lines : List String) (res r : Recipe) (s : Serving),
      Recipe.loadLines res lines = .ok r → ("name", s) ∈ r.ingredients →
      ("name", s) ∈ res.ingredients ∨
        (s = Serving.default ∧ ∃ l ∈ lines, strTrim l = "name") := by
  intro lines
  induction lines with
  | nil =>
    intro res r s h hm
    rw [Recipe.loadLines] at h
    cases h
    exact Or.inl hm
  | cons line rest ih =>
    intro res r s h hm
    rw [Recipe.loadLines] at h
    by_cases ht : strTrim line = ""
    · rw [if_pos ht] at h
      rcases ih res r s h hm with h' | ⟨hs, l, hl, hname⟩
      · exact Or.inl h'
      · exact Or.inr ⟨hs, l, List.mem_cons_of_mem _ hl, hname⟩
    · rw [if_neg ht] at h
      cases hsp : splitOnce (strTrim line) '=' with
      | some ab =>
        obtain ⟨a, b⟩ := ab
        rw [hsp] at h
        dsimp only at h
        by_cases hn : strTrim a = "name"
        · rw [if_pos hn] at h
          rcases ih _ r s h hm with h' | ⟨hs, l, hl, hname⟩
          · exact Or.inl h'
          · exact Or.inr ⟨hs, l, List.mem_cons_of_mem _ hl, hname⟩
        · rw [if_neg hn] at h
          cases hps : parseServing (strTrim b) with
          | none => rw [hps] at h; exact absurd h (by simp)
          | some s' =>
            rw [hps] at h
            rcases ih _ r s h hm with h' | ⟨hs, l, hl, hname⟩
            · rcases List.mem_append.mp h' with h'' | h''
              · exact Or.inl h''
              · simp only [List.mem_singleton, Prod.mk.injEq] at h''
                exact absurd h''.1.symm hn
            · exact Or.inr ⟨hs, l, List.mem_cons_of_mem _ hl, hname⟩
      | none =>
        rw [hsp] at h
        rcases ih _ r s h hm with h' | ⟨hs, l, hl, hname⟩
        · rcases List.mem_append.mp h' with h'' | h''
          · exact Or.inl h''
          · simp only [List.mem_singleton, Prod.mk.injEq] at h''
            exact Or.inr ⟨h''.2, line, List.mem_cons_self _ _, h''.1.symm⟩
        · exact Or.inr ⟨hs, l, List.mem_cons_of_mem _ hl, hname⟩

/-! ## Claims C3, C4, C9, C10 (loading and saving) -/

/-- C3 (refuting evaluation): `Recipe::save` writes only the ingredient
lines and never the `name` field, so saving the recipe named "cake" and
loading the result yields the default name, not the original value; the
round-trip `load(save(v)) == v` fails. -/
theorem c3_recipe_roundtrip_loses_name :
    Recipe.save ⟨"cake", []⟩ = [] ∧
    Recipe.load (Recipe.save ⟨"cake", []⟩) = .ok ⟨"", []⟩ ∧
    (⟨"", []⟩ : Recipe) ≠ ⟨"cake", []⟩ :=
  ⟨rfl, rfl, by decide⟩

/-- C4 counterexample: `Recipe::load` takes no resolver callback and performs
no food resolution at all, so a recipe referencing the key "nope" loads
successfully no matter what any resolver would answer — the claim's required
failure never happens for recipes. -/
theorem c4_recipe_no_resolution :
    Recipe.load ["nope"] = .ok ⟨"", [("nope", Serving.default)]⟩ := rfl

/-- C4 (amended): for Food and Journal inputs, a referenced food key whose
resolver returns `None` fails the load with the food-not-found error naming
that key, and a successful load keeps every referenced entry with the food the
resolver produced (nothing is silently dropped); `Recipe::load` performs no
resolution (see the counterexample). -/
theorem c4_missing_key_amended :
    (∀ (resolver : String → Except LoadErr (Option Food)) (name k v : String)
        (s : Serving) (rest : List (String × String)),
      parseServing v = some s → resolver k = .ok none →
      Food.loadIni resolver ⟨[("name", name)], [("ingredients", (k, v) :: rest)]⟩ =
        .error (.foodNotFound k)) ∧
    (∀ (resolver : String → Except LoadErr (Option Food)) (name : String)
        (entries : List (String × String)) (f : Food),
      Food.loadIni resolver ⟨[("name", name)], [("ingredients", entries)]⟩ = .ok f →
      ∃ l, f.spec = .ingredients l ∧ l.map Ingredient.key = entries.map Prod.fst ∧
        ∀ i ∈ l, resolver i.key = .ok (some i.food)) ∧
    (∀ (resolver : String → Except LoadErr (Option Food)) (l : String)
        (rest : List String),
      strTrim l ≠ "" → splitOnce (strTrim l) '=' = none → resolver (strTrim l) = .ok none →
      Journal.load resolver (l :: rest) = .error (.foodNotFound (strTrim l))) ∧
    (∀ (resolver : String → Except LoadErr (Option Food)) (lines : List String)
        (j : List JournalEntry),
      Journal.load resolver lines = .ok j →
      j.length = (lines.filter fun l => strTrim l ≠ "").length ∧
        ∀ e ∈ j, resolver e.key = .ok (some e.food)) := by
  refine ⟨?_, ?_, ?_, ?_⟩
  · intro resolver name k v s rest hps hres
    simp only [Food.loadIni, iniGet, List.lookup, String.reduceBEq]
    simp only [loadIngredients, hps, hres]
  · intro resolver name entries f h
    simp only [Food.loadIni, iniGet, List.lookup, String.reduceBEq] at h
    cases hl : loadIngredients resolver entries with
    | error err => rw [hl] at h; exact absurd h (by simp)
    | ok l =>
      rw [hl] at h
      dsimp only at h
      cases h
      obtain ⟨hkeys, hres⟩ := loadIngredients_ok resolver entries l hl
      exact ⟨l, rfl, hkeys, hres⟩
  · intro resolver l rest hne hsp hres
    rw [Journal.load, if_neg hne, parseJournalLine, hsp]
    dsimp only
    rw [hres]
  · exact journal_load_ok

/-- Witness for C4 (amended), journal part: a single-line journal naming a
food the resolver does not know fails with that key. -/
theorem c4_missing_key_amended_witness :
    strTrim "oats" ≠ "" ∧ splitOnce (strTrim "oats") '=' = none ∧
    Journal.load (fun _ => .ok none) ["oats"] = .error (.foodNotFound (strTrim "oats")) :=
  ⟨by decide, by decide,
    c4_missing_key_amended.2.2.1 (fun _ => .ok none) "oats" [] (by decide) (by decide) rfl⟩

/-- C9 counterexample: an input that does contain a `[nutrients]` section
whose single key parses, but no `name` key, is rejected by `Food::load`
(src/food.rs:175-179), so the claim's unconditional "load succeeds" is
false. -/
theorem c9_nutrients_requires_name :
    Food.loadIni (fun _ => .ok none) ⟨[], [("nutrients", [("carb", "5")])]⟩ =
      .error .missingName := rfl

/-- C9 (amended): for an otherwise well-formed input — a `name` present, a
`[nutrients]` section and no `[ingredients]` section — `Food::load` succeeds
with any subset of kcal/carb/fat/protein present (provided the present values
parse), and every omitted nutrient field of the loaded food is `0`. -/
theorem c9_nutrients_defaults_amended
    (resolver : String → Except LoadErr (Option Food)) (name : String)
    (nsec : List (String × String)) (kc cb ft pr : ℚ)
    (hk : parseNum ((iniGet nsec "kcal").getD "0") = some kc)
    (hc : parseNum ((iniGet nsec "carb").getD "0") = some cb)
    (hf : parseNum ((iniGet nsec "fat").getD "0") = some ft)
    (hp : parseNum ((iniGet nsec "protein").getD "0") = some pr) :
    Food.loadIni resolver ⟨[("name", name)], [("nutrients", nsec)]⟩ =
      .ok (.mk name (.nutrients ⟨cb, ft, pr, kc⟩) []) ∧
    (iniGet nsec "kcal" = none → kc = 0) ∧
    (iniGet nsec "carb" = none → cb = 0) ∧
    (iniGet nsec "fat" = none → ft = 0) ∧
    (iniGet nsec "protein" = none → pr = 0) := by
  have zero : ∀ (q : ℚ), parseNum ((none : Option String).getD "0") = some q → q = 0 := by
    intro q hq
    have h0 : parseNum ((none : Option String).getD "0") = some 0 := by decide
    rw [h0] at hq
    exact (Option.some.injEq _ _).mp hq.symm
  refine ⟨?_, fun h => zero kc (h ▸ hk), fun h => zero cb (h ▸ hc),
    fun h => zero ft (h ▸ hf), fun h => zero pr (h ▸ hp)⟩
  simp only [Food.loadIni, iniGet, List.lookup, String.reduceBEq]
  simp only [parseNutrientsSec, hk, hc, hf, hp]

/-- Witness for C9 (amended): a nutrients section defining only carb loads
with the other three fields zero. -/
theorem c9_nutrients_defaults_amended_witness :
    parseNum ((iniGet [("carb", "5")] "kcal").getD "0") = some (0 : ℚ) ∧
    parseNum ((iniGet [("carb", "5")] "carb").getD "0") = some (5 : ℚ) ∧
    Food.loadIni (fun _ => .ok none) ⟨[("name", "oats")], [("nutrients", [("carb", "5")])]⟩ =
      .ok (.mk "oats" (.nutrients ⟨5, 0, 0, 0⟩) []) :=
  ⟨by decide, by decide,
    (c9_nutrients_defaults_amended (fun _ => .ok none) "oats" [("carb", "5")] 0 5 0 0
      (by decide) (by decide) (by decide) (by decide)).1⟩

/-- C10 counterexample: a bare `name` line (without `=`) is pushed as an
ingredient keyed "name", so loaded recipes can contain an ingredient with
key "name", contrary to the claim's invariant. -/
theorem c10_bare_name_line :
    Recipe.load ["name"] = .ok ⟨"", [("name", Serving.default)]⟩ := rfl

/-- C10 (amended): a `name = X` line sets the recipe name to the trimmed `X`
and pushes no ingredient, so no line containing `=` ever produces an
ingredient keyed "name"; an ingredient keyed "name" arises exactly from a bare
line whose trimmed text is `name` (with the default serving). -/
theorem c10_name_line_amended :
    (∀ (res : Recipe) (l : String) (rest : List String) (a b : String),
      splitOnce (strTrim l) '=' = some (a, b) → strTrim a = "name" →
      Recipe.loadLines res (l :: rest) = Recipe.loadLines { res with name := strTrim b } rest) ∧
    (∀ (lines : List String) (r : Recipe) (s : Serving),
      Recipe.load lines = .ok r → ("name", s) ∈ r.ingredients →
      s = Serving.default ∧ ∃ l ∈ lines, strTrim l = "name") := by
  constructor
  · intro res l rest a b hsp hname
    have hne : strTrim l ≠ "" := by
      intro h
      rw [h, show splitOnce "" '=' = none from rfl] at hsp
      exact Option.noConfusion hsp
    rw [Recipe.loadLines, if_neg hne, hsp]
    dsimp only
    rw [if_pos hname]
  · intro lines r s h hm
    rcases recipe_loadLines_name_mem lines ⟨"", []⟩ r s h hm with h' | h'
    · exact absurd h' (by simp)
    · exact h'

/-- Witness for C10 (amended): the line `name = X` on the default state sets
the name to `X` and leaves the ingredient list empty. -/
theorem c10_name_line_amended_witness :
    splitOnce (strTrim "name = X") '=' = some ("name ", " X") ∧
    strTrim "name " = "name" ∧
    Recipe.loadLines ⟨"", []⟩ ["name = X"] =
      Recipe.loadLines { Recipe.mk "" [] with name := strTrim " X" } [] :=
  ⟨by decide, by decide,
    c10_name_line_amended.1 ⟨"", []⟩ "name = X" [] "name " " X" (by decide) (by decide)⟩

/-! ## Key-to-path mappings (src/food.rs, src/recipe.rs, src/journal.rs, src/lib.rs)

Paths are modelled as strings relative to the database root.  `Food::path` and
`Recipe::path` are `[DIR, key].iter().collect::<PathBuf>().with_extension(ext)`;
the model below reproduces `PathBuf::with_extension` on the last path
component: strip the component's extension (the part after its last `.`,
except a leading `.`), then append the new one.  A single trailing separator
is ignored as `Path::file_name` does, and a final `..` component makes
`set_extension` a no-op; the normalization of `.` components and repeated
separators inside a path is not modelled (no key used in the theorems below
produces them). -/

/-- Index of the last occurrence of `c`, if any. -/
def lastIdxOf (c : Char) : List Char → Option Nat
  | [] => none
  | x :: xs =>
    match lastIdxOf c xs with
    | some i => some (i + 1)
    | none => if x == c then some 0 else none

/-- `Path::file_stem` composed with the dot: drop the extension of a file
name (the part after the last `.`, unless that `.` is the leading
character). -/
def rustFileStem (f : String) : String :=
  match lastIdxOf '.' f.data with
  | some i => if i = 0 then f else ⟨f.data.take i⟩
  | none => f

/-- Split a path into the part up to and including the last `/`, and the
final component. -/
def splitAtLastSlash (p : String) : String × String :=
  match lastIdxOf '/' p.data with
  | some i => (⟨p.data.take (i + 1)⟩, ⟨p.data.drop (i + 1)⟩)
  | none => ("", p)

/-- Model of `PathBuf::with_extension` (see the section comment for its
scope). -/
def rustWithExtension (p ext : String) : String :=
  if (splitAtLastSlash p).2 = "" then
    (splitAtLastSlash ⟨p.data.dropLast⟩).1 ++
      rustFileStem (splitAtLastSlash ⟨p.data.dropLast⟩).2 ++ "." ++ ext
  else if (splitAtLastSlash p).2 = ".." then p
  else (splitAtLastSlash p).1 ++ rustFileStem (splitAtLastSlash p).2 ++ "." ++ ext

/-- `Food::path` (src/food.rs:160-165): `food/<key>` with extension `txt`. -/
def Food.path (key : String) : String := rustWithExtension ("food/" ++ key) "txt"

/-- `Recipe::path` (src/recipe.rs:24-29): `recipe/<key>` with extension
`txt`. -/
def Recipe.path (key : String) : String := rustWithExtension ("recipe/" ++ key) "txt"

/-- `{:0w}` formatting of a natural number: left pad the decimal digits with
zeros to width `w`. -/
def padNatChars (w n : Nat) : List Char :=
  List.replicate (w - (natChars n).length) '0' ++ natChars n

def padNat (w n : Nat) : String := ⟨padNatChars w n⟩

/-- `{:0w}` formatting of an integer: the sign counts toward the width and
precedes the zeros, as in Rust. -/
def padIntChars (w : Nat) (i : Int) : List Char :=
  if i < 0 then '-' :: padNatChars (w - 1) (-i).toNat else padNatChars w i.toNat

def padInt (w : Nat) (i : Int) : String := ⟨padIntChars w i⟩

/-- `Journal::path` (src/journal.rs:30-38):
`format!("journal/{:04}/{:02}/{:02}.txt", year, month, day)`; the key is a
calendar date, modelled as its year/month/day fields. -/
def Journal.path (y : Int) (m d : Nat) : String :=
  "journal/" ++ (padInt 4 y ++ ("/" ++ (padNat 2 m ++ ("/" ++ (padNat 2 d ++ ".txt")))))

/-- `Database::save_food` target (src/lib.rs:314-316):
`food_dir.join(key).with_extension("txt")`, relative to the root. -/
def Database.saveFoodPath (key : String) : String := rustWithExtension ("food/" ++ key) "txt"

/-- `Database::load_food` source (src/lib.rs:275-276): same `txt` path. -/
def Database.loadFoodPath (key : String) : String := rustWithExtension ("food/" ++ key) "txt"

/-- `Database::remove_food` target (src/lib.rs:338-342):
`food_dir.join(key).with_extension("toml")`. -/
def Database.removeFoodPath (key : String) : String := rustWithExtension ("food/" ++ key) "toml"

/-! ## Claim C6 (Database::remove_food path mismatch) -/

/-- C6 (refuting evaluation): `remove_food` deletes `food/<key>.toml` while
`save_food` and `load_food` address `food/<key>.txt`, so for the key "oats"
the removed path is not the saved/loaded path. -/
theorem c6_remove_path_mismatch :
    Database.saveFoodPath "oats" = "food/oats.txt" ∧
    Database.loadFoodPath "oats" = "food/oats.txt" ∧
    Database.removeFoodPath "oats" = "food/oats.toml" ∧
    Database.removeFoodPath "oats" ≠ Database.saveFoodPath "oats" :=
  ⟨by decide, by decide, by decide, by decide⟩

/-! ## Claim C5 (key-to-path mapping)

`with_extension` REPLACES an existing extension, so two keys differing only
after a final dot collide; injectivity holds once keys avoid `.` (and `/`,
which would add directory levels).  The lemmas below establish the positive
part, including injectivity of the zero-padded date encoding. -/

/-- C5 counterexample: the keys "a" and "a.b" are distinct but map to the
same food path, because `with_extension("txt")` replaces the `.b` suffix. -/
theorem c5_path_not_injective :
    Food.path "a" = "food/a.txt" ∧ Food.path "a.b" = "food/a.txt" ∧ ("a" : String) ≠ "a.b" :=
  ⟨by decide, by decide, by decide⟩

theorem strInj (s t : String) (h : s.data = t.data) : s = t := by
  cases s; cases t; exact congrArg String.mk h

theorem strData_append (s t : String) : (s ++ t).data = s.data ++ t.data := rfl

theorem lastIdxOf_none_of_not_mem (c : Char) (l : List Char) (h : ∀ x ∈ l, x ≠ c) :
    lastIdxOf c l = none := by
  induction l with
  | nil => rfl
  | cons x xs ih =>
    rw [lastIdxOf, ih fun y hy => h y (List.mem_cons_of_mem _ hy)]
    simp [h x (List.mem_cons_self _ _)]

theorem lastIdxOf_append_of_none (c : Char) (l1 l2 : List Char)
    (h : lastIdxOf c l2 = none) : lastIdxOf c (l1 ++ l2) = lastIdxOf c l1 := by
  induction l1 with
  | nil => simpa using h
  | cons x xs ih => rw [List.cons_append, lastIdxOf, ih, lastIdxOf]

theorem rustWithExtension_clean (pre k ext : String) (hk : k ≠ "")
    (hnoslash : ∀ c ∈ k.data, c ≠ '/') (hnodot : ∀ c ∈ k.data, c ≠ '.')
    (i : Nat) (hpre : lastIdxOf '/' pre.data = some i) (hlen : pre.data.length = i + 1) :
    rustWithExtension (pre ++ k) ext = pre ++ rustFileStem k ++ "." ++ ext := by
  have hsl : lastIdxOf '/' (pre ++ k).data = some i := by
    rw [strData_append,
      lastIdxOf_append_of_none _ _ _ (lastIdxOf_none_of_not_mem _ _ hnoslash), hpre]
  have htake : (pre ++ k).data.take (i + 1) = pre.data := by
    rw [strData_append, ← hlen, List.take_left]
  have hdrop : (pre ++ k).data.drop (i + 1) = k.data := by
    rw [strData_append, ← hlen, List.drop_left]
  have hsplit : splitAtLastSlash (pre ++ k) = (pre, k) := by
    rw [splitAtLastSlash, hsl]
    dsimp only
    rw [htake, hdrop]
  have hne2 : k ≠ ".." := fun h =>
    (hnodot '.' (h ▸ (by decide : ('.' : Char) ∈ (".." : String).data))) rfl
  rw [rustWithExtension, hsplit]
  dsimp only
  rw [if_neg hk, if_neg hne2]

theorem rustFileStem_nodot (k : String) (hnodot : ∀ c ∈ k.data, c ≠ '.') :
    rustFileStem k = k := by
  rw [rustFileStem, lastIdxOf_none_of_not_mem _ _ hnodot]

/-- For a nonempty key without `/` and `.`, `Food::path` is literally
`food/<key>.txt`. -/
theorem foodPath_clean (k : String) (hk : k ≠ "") (hns : ∀ c ∈ k.data, c ≠ '/')
    (hnd : ∀ c ∈ k.data, c ≠ '.') : Food.path k = "food/" ++ k ++ ".txt" := by
  rw [Food.path, rustWithExtension_clean "food/" k "txt" hk hns hnd 4 (by decide) (by decide),
    rustFileStem_nodot k hnd]
  exact strInj _ _ (by simp [strData_append])

/-- Same formula for `Recipe::path`. -/
theorem recipePath_clean (k : String) (hk : k ≠ "") (hns : ∀ c ∈ k.data, c ≠ '/')
    (hnd : ∀ c ∈ k.data, c ≠ '.') : Recipe.path k = "recipe/" ++ k ++ ".txt" := by
  rw [Recipe.path, rustWithExtension_clean "recipe/" k "txt" hk hns hnd 6 (by decide) (by decide),
    rustFileStem_nodot k hnd]
  exact strInj _ _ (by simp [strData_append])

/-! Injectivity of the zero-padded decimal date encoding. -/

/-- Little-endian value of a digit string; the left inverse used to prove the
decimal renderings injective. -/
def digitsValLE : List Char → Nat
  | [] => 0
  | c :: r => (c.toNat - 48) + 10 * digitsValLE r

theorem digitChar_toNat : ∀ d, d < 10 → (digitChar d).toNat = 48 + d := by decide

theorem digitsValLE_aux : ∀ (fuel n : Nat), n < fuel →
    digitsValLE (natDigitsLEAux fuel n) = n := by
  intro fuel
  induction fuel with
  | zero => intro n h; omega
  | succ f ih =>
    intro n h
    rw [natDigitsLEAux]
    by_cases h10 : n < 10
    · rw [if_pos h10, digitsValLE, digitsValLE, digitChar_toNat n h10]
      omega
    · rw [if_neg h10, digitsValLE, digitChar_toNat _ (Nat.mod_lt _ (by omega)),
        ih (n / 10) (by omega)]
      omega

theorem natDigitsLEAux_digit : ∀ (fuel n : Nat), n < fuel →
    ∀ c ∈ natDigitsLEAux fuel n, 48 ≤ c.toNat ∧ c.toNat ≤ 57 := by
  intro fuel
  induction fuel with
  | zero => intro n h; omega
  | succ f ih =>
    intro n h c hc
    rw [natDigitsLEAux] at hc
    by_cases h10 : n < 10
    · rw [if_pos h10] at hc
      rcases List.mem_singleton.mp hc with rfl
      rw [digitChar_toNat n h10]
      omega
    · rw [if_neg h10] at hc
      rcases List.mem_cons.mp hc with rfl | hc
      · rw [digitChar_toNat _ (Nat.mod_lt _ (by omega))]
        have := Nat.mod_lt n (show 0 < 10 by omega)
        omega
      · exact ih (n / 10) (by omega) c hc

theorem digitsValLE_replicate_zero (z : Nat) : digitsValLE (List.replicate z '0') = 0 := by
  induction z with
  | zero => rfl
  | succ z ih =>
    rw [List.replicate_succ]
    simp [digitsValLE, ih]

theorem digitsValLE_append_zeros (l : List Char) (z : Nat) :
    digitsValLE (l ++ List.replicate z '0') = digitsValLE l := by
  induction l with
  | nil => rw [List.nil_append, digitsValLE_replicate_zero]; rfl
  | cons c r ih =>
    rw [List.cons_append]
    simp [digitsValLE, ih]

theorem padNatChars_val (w n : Nat) : digitsValLE (padNatChars w n).reverse = n := by
  rw [padNatChars, List.reverse_append, List.reverse_replicate, natChars,
    List.reverse_reverse, digitsValLE_append_zeros]
  exact digitsValLE_aux (n + 1) n (by omega)

theorem padNatChars_inj (w1 w2 a b : Nat) (h : padNatChars w1 a = padNatChars w2 b) :
    a = b := by
  rw [← padNatChars_val w1 a, ← padNatChars_val w2 b, h]

theorem padNatChars_digit (w n : Nat) : ∀ c ∈ padNatChars w n, 48 ≤ c.toNat ∧ c.toNat ≤ 57 := by
  intro c hc
  rcases List.mem_append.mp hc with hc | hc
  · rcases List.eq_of_mem_replicate hc with rfl
    decide
  · rw [natChars] at hc
    exact natDigitsLEAux_digit (n + 1) n (by omega) c (List.mem_reverse.mp hc)

theorem natDigitsLEAux_ne_nil (f n : Nat) : natDigitsLEAux (f + 1) n ≠ [] := by
  rw [natDigitsLEAux]
  split <;> simp

theorem padNatChars_ne_nil (w n : Nat) : padNatChars w n ≠ [] := by
  rw [padNatChars]
  intro h
  rcases List.append_eq_nil.mp h with ⟨-, h2⟩
  rw [natChars] at h2
  exact natDigitsLEAux_ne_nil n n (by simpa using h2)

theorem padIntChars_inj (w1 w2 : Nat) (i j : Int) (h : padIntChars w1 i = padIntChars w2 j) :
    i = j := by
  have hminus : ∀ (w n : Nat), ('-' : Char) ∉ padNatChars w n := by
    intro w n hm
    have := (padNatChars_digit w n '-' hm).1
    revert this
    decide
  rw [padIntChars, padIntChars] at h
  by_cases hi : i < 0 <;> by_cases hj : j < 0
  · rw [if_pos hi, if_pos hj] at h
    have h2 := List.tail_eq_of_cons_eq h
    have := padNatChars_inj _ _ _ _ h2
    omega
  · rw [if_pos hi, if_neg hj] at h
    exact absurd (h ▸ List.mem_cons_self '-' _) (hminus _ _)
  · rw [if_neg hi, if_pos hj] at h
    exact absurd (h.symm ▸ List.mem_cons_self '-' _) (hminus _ _)
  · rw [if_neg hi, if_neg hj] at h
    have := padNatChars_inj _ _ _ _ h
    omega

theorem natDigitsLEAux_length_le_two : ∀ (fuel n : Nat), n < fuel → n < 100 →
    (natDigitsLEAux fuel n).length ≤ 2 := by
  intro fuel
  induction fuel with
  | zero => intro n h; omega
  | succ f ih =>
    intro n h h100
    rw [natDigitsLEAux]
    by_cases h10 : n < 10
    · simp [h10]
    · rw [if_neg h10, List.length_cons]
      have hq : n / 10 < 10 := by omega
      have hf : n / 10 < f := by omega
      obtain ⟨g, rfl⟩ : ∃ g, f = g + 1 := ⟨f - 1, by omega⟩
      rw [natDigitsLEAux, if_pos hq]
      simp

theorem padNatChars_two_length (n : Nat) (h : n < 100) : (padNatChars 2 n).length = 2 := by
  rw [padNatChars, List.length_append, List.length_replicate]
  have h2 : (natChars n).length ≤ 2 := by
    rw [natChars, List.length_reverse]
    exact natDigitsLEAux_length_le_two (n + 1) n (by omega) h
  omega

/-- Distinct valid dates give distinct journal paths. -/
theorem journalPath_inj (y1 y2 : Int) (m1 d1 m2 d2 : Nat)
    (hm1 : m1 ≤ 12) (hd1 : d1 ≤ 31) (hm2 : m2 ≤ 12) (hd2 : d2 ≤ 31)
    (h : Journal.path y1 m1 d1 = Journal.path y2 m2 d2) :
    y1 = y2 ∧ m1 = m2 ∧ d1 = d2 := by
  have hd := congrArg String.data h
  simp only [Journal.path, strData_append] at hd
  rw [show (padInt 4 y1).data = padIntChars 4 y1 from rfl,
    show (padInt 4 y2).data = padIntChars 4 y2 from rfl,
    show (padNat 2 m1).data = padNatChars 2 m1 from rfl,
    show (padNat 2 m2).data = padNatChars 2 m2 from rfl,
    show (padNat 2 d1).data = padNatChars 2 d1 from rfl,
    show (padNat 2 d2).data = padNatChars 2 d2 from rfl] at hd
  have hd2' := List.append_cancel_left hd
  obtain ⟨hy, hrest⟩ := List.append_inj' hd2' (by
    simp [padNatChars_two_length m1 (show m1 < 100 by omega),
      padNatChars_two_length m2 (show m2 < 100 by omega),
      padNatChars_two_length d1 (show d1 < 100 by omega),
      padNatChars_two_length d2 (show d2 < 100 by omega)])
  refine ⟨padIntChars_inj _ _ _ _ hy, ?_⟩
  have hrest2 := List.append_cancel_left hrest
  obtain ⟨hm, hrest3⟩ := List.append_inj' hrest2 (by
    simp [padNatChars_two_length d1 (show d1 < 100 by omega),
      padNatChars_two_length d2 (show d2 < 100 by omega)])
  refine ⟨padNatChars_inj _ _ _ _ hm, ?_⟩
  have hrest4 := List.append_cancel_left hrest3
  obtain ⟨hdd, -⟩ := List.append_inj' hrest4 rfl
  exact padNatChars_inj _ _ _ _ hdd

/-- C5 (amended): the mapping is deterministic (it is a function) and always
appends an extension; for nonempty string keys containing neither `/` nor `.`
the path is exactly `DIR/key.ext` under the kind's directory and the mapping
is injective, and for date keys the `YYYY/MM/DD.txt` hierarchy is injective
over valid dates.  (Keys with a `.` are NOT injective — `with_extension`
replaces their final suffix, see the counterexample — and this amendment
restricts the claim accordingly.) -/
theorem c5_path_amended :
    (∀ k : String, k ≠ "" → (∀ c ∈ k.data, c ≠ '/' ∧ c ≠ '.') →
      Food.path k = "food/" ++ k ++ ".txt" ∧ Recipe.path k = "recipe/" ++ k ++ ".txt") ∧
    (∀ k1 k2 : String, k1 ≠ "" → (∀ c ∈ k1.data, c ≠ '/' ∧ c ≠ '.') →
      k2 ≠ "" → (∀ c ∈ k2.data, c ≠ '/' ∧ c ≠ '.') →
      Food.path k1 = Food.path k2 → k1 = k2) ∧
    (∀ (y1 y2 : Int) (m1 d1 m2 d2 : Nat), m1 ≤ 12 → d1 ≤ 31 → m2 ≤ 12 → d2 ≤ 31 →
      Journal.path y1 m1 d1 = Journal.path y2 m2 d2 → y1 = y2 ∧ m1 = m2 ∧ d1 = d2) := by
  refine ⟨?_, ?_, ?_⟩
  · intro k hk hcs
    exact ⟨foodPath_clean k hk (fun c hc => (hcs c hc).1) (fun c hc => (hcs c hc).2),
      recipePath_clean k hk (fun c hc => (hcs c hc).1) (fun c hc => (hcs c hc).2)⟩
  · intro k1 k2 h1 hc1 h2 hc2 heq
    rw [foodPath_clean k1 h1 (fun c hc => (hc1 c hc).1) (fun c hc => (hc1 c hc).2),
      foodPath_clean k2 h2 (fun c hc => (hc2 c hc).1) (fun c hc => (hc2 c hc).2)] at heq
    have hdata := congrArg String.data heq
    simp only [strData_append, List.append_assoc] at hdata
    have h3 := List.append_cancel_left hdata
    obtain ⟨hk, -⟩ := List.append_inj' h3 rfl
    exact strInj _ _ hk
  · intro y1 y2 m1 d1 m2 d2 hm1 hd1 hm2 hd2 h
    exact journalPath_inj y1 y2 m1 d1 m2 d2 hm1 hd1 hm2 hd2 h

/-- Witness for C5 (amended) at the key "oats" (and, through the theorem's
last conjunct, the concrete formula instances). -/
theorem c5_path_amended_witness :
    ("oats" : String) ≠ "" ∧ (∀ c ∈ ("oats" : String).data, c ≠ '/' ∧ c ≠ '.') ∧
    Food.path "oats" = "food/" ++ "oats" ++ ".txt" ∧
    Recipe.path "oats" = "recipe/" ++ "oats" ++ ".txt" :=
  ⟨by decide, by decide,
    (c5_path_amended.1 "oats" (by decide) (by decide)).1,
    (c5_path_amended.1 "oats" (by decide) (by decide)).2⟩
